import Mathlib

/-!
Verification of the 3ColorGraph repository (supervisor.c, generator.c, common.c/h).

The C sources are shallowly embedded below: pure functions (the edge parser,
the coloring engine, the token counter, the ring-buffer read) become Lean
functions on `List Char` / `Nat` / `Int`; the interprocess coordination
protocol (supervisor loop + generator publish loop over the three semaphores
and the shared memory) becomes a labelled transition system `Step` over an
explicit state `Sys`, with `Reach` its reachability predicate.
Machine integers are modelled as `Int`/`Nat` with the explicit range checks
the C code performs; fallible operations return `Option`/`Except`.
-/

namespace ThreeCol

/-- Capacity of the circular buffer, `#define BUF_LEN 64` in common.h. -/
def BUF_LEN : Nat := 64

/-- Fixed width of one record slot, `#define MAX_LINE 50` in common.h. -/
def MAX_LINE : Nat := 50

/-! ### Edge parsing (generator.c: parseNumber, parseEdge, parseEdges)

`parseNumber` wraps `strtol(str, endptr, 10)`. C-locale `strtol` skips
leading whitespace, accepts one optional sign, then consumes decimal digits;
if no digits are consumed it sets `*endptr = str` (no conversion).
The C code then maps this to a status: `-2` for no conversion, `-1` for a
`long` overflow (`ERANGE`), `-3` for a value outside `int` range, `0` for
success. -/

/-- Characters skipped by `strtol` in the C locale (`isspace`). -/
def isSpaceC (c : Char) : Bool :=
  c = ' ' || c = '\t' || c = '\n' || c = '\x0b' || c = '\x0c' || c = '\r'

/-- Numeric value of a nonempty run of decimal digits. -/
def digitsVal (ds : List Char) : Nat :=
  ds.foldl (fun a c => a * 10 + (c.toNat - 48)) 0

/-- Largest `int` value, `INT_MAX` (limits.h). -/
def INT_MAX : Int := 2 ^ 31 - 1

/-- Smallest `int` value, `INT_MIN` (limits.h). -/
def INT_MIN : Int := -(2 ^ 31)

/-- Largest `long` value, `LONG_MAX` (limits.h, LP64). -/
def LONG_MAX : Int := 2 ^ 63 - 1

/-- Smallest `long` value, `LONG_MIN` (limits.h, LP64). -/
def LONG_MIN : Int := -(2 ^ 63)

/-- Model of `strtol(str, endptr, 10)`: returns the mathematical value read,
the rest of the string after the last digit consumed (the `*endptr`
position), and whether any conversion happened at all.  On no conversion the
returned rest is the whole original string, as `strtol` specifies. -/
def strtol10 (s : List Char) : Int × List Char × Bool :=
  let s1 := s.dropWhile isSpaceC
  let signAndRest : Int × List Char :=
    match s1 with
    | '-' :: t => (-1, t)
    | '+' :: t => (1, t)
    | _ => (1, s1)
  let ds := signAndRest.2.takeWhile Char.isDigit
  let rest := signAndRest.2.dropWhile Char.isDigit
  if ds.isEmpty then (0, s, false)
  else (signAndRest.1 * (digitsVal ds : Int), rest, true)

/-- Model of generator.c `parseNumber` (lines 207-223): value, end pointer
(modelled as the remaining suffix) and status.  Status is negative exactly
when `strtol` converted nothing, overflowed `long`, or the value is outside
`int` range. -/
def parseNumber (s : List Char) : Int × List Char × Int :=
  let r := strtol10 s
  if ¬ r.2.2 then (r.1, r.2.1, -2)
  else if r.1 > LONG_MAX ∨ r.1 < LONG_MIN then (r.1, r.2.1, -1)
  else if r.1 > INT_MAX ∨ r.1 < INT_MIN then (r.1, r.2.1, -3)
  else (r.1, r.2.1, 0)

/-- Model of generator.c `parseEdge` (lines 225-235): parse `U`, require the
very next character to be `'-'`, parse `V` from after the `'-'`, require the
second end pointer to sit at the end of the string.  Returns the two parsed
node values on success, `none` on rejection (C return `-1`). -/
def parseEdge (s : List Char) : Option (Int × Int) :=
  let r1 := parseNumber s
  if r1.2.1.head? ≠ some '-' ∨ r1.2.2 < 0 then none
  else
    let r2 := parseNumber r1.2.1.tail
    if r2.2.1 ≠ [] ∨ r2.2.2 < 0 then none
    else some (r1.1, r2.1)

/-- Model of generator.c `parseEdges` (lines 237-256): parse each argument in
order; on the first failure return that argument (the C code reports it via
`endptr`); on success return the node count `nodeN`, the running maximum of
`node + 1` starting from `0`, together with the parsed edge list. -/
def parseEdges (args : List (List Char)) : Except (List Char) (Int × List (Int × Int)) :=
  match args with
  | [] => .ok (0, [])
  | a :: rest =>
    match parseEdge a with
    | none => .error a
    | some (u, v) =>
      match parseEdges rest with
      | .error bad => .error bad
      | .ok (n, es) =>
        .ok (max (max n (u + 1)) (v + 1), (u, v) :: es)

/-! Note: the C loop computes `nodeN` as a running maximum over all edges
starting from 0 and fails at the first bad argument; the recursion above
computes the same maximum and the same first failing argument. -/

/-! ### Named-resource creation and attachment (supervisor.c initSHM/initSEM,
generator.c openSHM/openSEM)

POSIX `shm_open`/`sem_open` succeed or fail depending on the `O_CREAT` and
`O_EXCL` flags and on whether an object of that name already exists:
without `O_CREAT` the call fails iff the name does not exist; with `O_CREAT`
alone it opens an existing object or creates a missing one (never fails on
existence); with `O_CREAT|O_EXCL` it fails iff the name already exists. -/

/-- Result of opening / creating a named OS object. -/
inductive OpenResult where
  | ok
  | err
deriving DecidableEq, Repr

/-- POSIX name-based success/failure semantics of `shm_open`/`sem_open`,
as a function of the `O_CREAT` flag, the `O_EXCL` flag, and whether an
object of the requested name already exists. -/
def posixOpen (creat excl exists_ : Bool) : OpenResult :=
  if creat then (if excl && exists_ then .err else .ok)
  else (if exists_ then .ok else .err)

/-- Supervisor `initSHM` (supervisor.c lines 217-234):
`shm_open(SHM_NAME, O_RDWR | O_CREAT, 0600)` — `O_CREAT` without `O_EXCL`. -/
def supInitSHM (exists_ : Bool) : OpenResult := posixOpen true false exists_

/-- Supervisor `initSEM` (supervisor.c lines 242-248):
`sem_open(sem_name, O_CREAT | O_EXCL, 0600, value)`. -/
def supInitSEM (exists_ : Bool) : OpenResult := posixOpen true true exists_

/-- Generator `openSHM` (generator.c lines 281-293):
`shm_open(SHM_NAME, O_RDWR, 0600)` — no `O_CREAT`. -/
def genOpenSHM (exists_ : Bool) : OpenResult := posixOpen false false exists_

/-- Generator `openSEM` (generator.c lines 295-305): `sem_open(sem_name, 0)`
— no `O_CREAT`. -/
def genOpenSEM (exists_ : Bool) : OpenResult := posixOpen false false exists_

/-! ### Generator startup order (generator.c main, lines 140-176)

The generator's `main` performs, in source order: the `getopt` option check
and the `argc <= 1` usage check, then `openSHM`, then `openSEM` for
`SEM_USED`, `SEM_FREE`, `SEM_MUTEX`, and only then `parseEdges` over the
arguments, exiting with `error_exit("Failed to parse edge %s")` naming the
first offending argument if parsing fails.  We embed this straight-line
prefix of `main` as the list of externally visible events it performs. -/

/-- Externally visible startup events of the generator process. -/
inductive GEvent where
  | evUsage
  | evOpenSHM
  | evOpenSemUsed
  | evOpenSemFree
  | evOpenSemMutex
  | evParseError (tok : List Char)
  | evEnterLoop
deriving DecidableEq, Repr

/-- One positional argument is treated as an option by `getopt(argc, argv,
"")`: it begins with `'-'`, has at least one more character, and is not the
option terminator `"--"` (glibc `getopt` permutes and scans every argument
before the first `"--"`). -/
def hasOptionArg : List (List Char) → Bool
  | [] => false
  | a :: rest =>
    if a = ['-', '-'] then false
    else if a.head? = some '-' && a.length ≥ 2 then true
    else hasOptionArg rest

/-- Event trace of the generator's `main` up to entering the publish loop
(generator.c lines 140-176), paired with whether the process exits with a
failure code during startup.  Resource-open events are emitted in the
source order: shared memory, then the used-, free- and mutex-semaphores,
all before edge parsing. -/
def genStartup (args : List (List Char)) : List GEvent × Bool :=
  if hasOptionArg args || args.isEmpty then ([.evUsage], true)
  else
    let opens := [GEvent.evOpenSHM, .evOpenSemUsed, .evOpenSemFree, .evOpenSemMutex]
    match parseEdges args with
    | .error bad => (opens ++ [.evParseError bad], true)
    | .ok _ => (opens ++ [.evEnterLoop], false)

/-- The four resource-open events of the generator's startup, in source
order (generator.c lines 149-159). -/
def opensList : List GEvent :=
  [.evOpenSHM, .evOpenSemUsed, .evOpenSemFree, .evOpenSemMutex]

/-! ### The coloring engine (generator.c generate3coloring, lines 258-278)

State per iteration: a color array (0 = uncolored) over the node ids and a
record buffer of capacity `MAX_LINE` bytes.  For each edge, in input order,
each still-uncolored endpoint receives `random() % 3 + 1`; if the endpoints
end up with equal colors the edge's original argument text is appended to
the buffer (space separated, via `strncat(buf, tok, MAX_LINE - strlen(buf))`),
unless `MAX_LINE - strlen(buf) < strlen(tok)`, in which case the whole
iteration is discarded (C return `-1`).

The randomness is a stream `rng : Nat → Nat` consumed at an explicit index
(`random()` returns a nonnegative value; only its residue mod 3 matters).
Besides the buffer the Lean model also returns, as ghost output for the
specification, the list of appended (flagged) tokens, the final color
array, and the number of random draws consumed. -/

/-- Model of `strncat(buf, tok, MAX_LINE - strlen(buf))`: appends at most
`MAX_LINE - buf.length` characters of `tok`. -/
def strncatB (buf tok : List Char) : List Char :=
  buf ++ tok.take (MAX_LINE - buf.length)

/-- One conflict append (generator.c lines 267-275): add the separating
space if the buffer is nonempty, then either discard (`none`) when the
remaining capacity is strictly smaller than the token, or append the token. -/
def appendTok (buf tok : List Char) : Option (List Char) :=
  let b1 := if buf.length > 0 then strncatB buf [' '] else buf
  if MAX_LINE - b1.length < tok.length then none
  else some (strncatB b1 tok)

/-- One endpoint assignment (generator.c lines 262-263 and 264-265): a
still-uncolored node receives `random() % 3 + 1`, consuming one random
draw; an already colored node is left alone. -/
def assignC (rng : Nat → Nat) (colors : List Nat) (k u : Nat) :
    List Nat × Nat :=
  if colors.getD u 0 = 0 then (colors.set u (rng k % 3 + 1), k + 1)
  else (colors, k)

/-- Loop body of `generate3coloring` over the edge/token list.  `colors` is
the node array (index = node id, `0` = uncolored), `k` the next random
index, `buf` the record buffer, `flagged` the ghost list of appended
tokens. -/
def gen3cAux (rng : Nat → Nat) :
    List ((Nat × Nat) × List Char) → List Nat → Nat → List Char →
    List (List Char) → Option (List Char × List (List Char) × List Nat × Nat)
  | [], colors, k, buf, flagged => some (buf, flagged, colors, k)
  | ((u, v), tok) :: rest, colors, k, buf, flagged =>
    let a1 := assignC rng colors k u
    let a2 := assignC rng a1.1 a1.2 v
    if a2.1.getD u 0 = a2.1.getD v 0 then
      match appendTok buf tok with
      | none => none
      | some b2 => gen3cAux rng rest a2.1 a2.2 b2 (flagged ++ [tok])
    else gen3cAux rng rest a2.1 a2.2 buf flagged

/-- Model of generator.c `generate3coloring` (lines 258-278).  `nodeN` is
the size of the node array (`memset(nodes, 0, nodeN)`), `edges` the parsed
edges, `toks` their original argument strings (`edgeStr[i + offset]`), and
`rng` the random stream.  `none` models the C return `-1` (discard); `some`
models return `0` with the resulting record buffer, plus ghost outputs. -/
def generate3coloring (nodeN : Nat) (edges : List (Nat × Nat))
    (toks : List (List Char)) (rng : Nat → Nat) :
    Option (List Char × List (List Char) × List Nat × Nat) :=
  gen3cAux rng (edges.zip toks) (List.replicate nodeN 0) 0 [] []

/-- Space-joined token list: the shape of a conflict report (space-separated
tokens, in order). -/
def joinSp : List (List Char) → List Char
  | [] => []
  | [t] => t
  | t :: s :: rest => t ++ ' ' :: joinSp (s :: rest)

/-! ### Token counting (supervisor.c countEdges, lines 268-281)

The C loop: on a nonempty string, repeatedly increment the count, skip one
leading space if present, and jump to the next `' '` via `strchr`, until
`strchr` returns `NULL`. -/

/-- Model of `strchr(ws, ' ')`: the suffix starting at the first space, or
`none`. -/
def strchrSp : List Char → Option (List Char)
  | [] => none
  | c :: t => if c = ' ' then some (c :: t) else strchrSp t

/-- A `strchrSp` result is never longer than its argument. -/
theorem strchrSp_length_le : ∀ s r, strchrSp s = some r → r.length ≤ s.length := by
  intro s
  induction s with
  | nil => intro r h; simp [strchrSp] at h
  | cons c t ih =>
    intro r h
    by_cases hc : c = ' '
    · simp [strchrSp, hc] at h
      simp [← h]
    · simp [strchrSp, hc] at h
      exact le_trans (ih r h) (Nat.le_succ _)

/-- If the head is not a space, `strchrSp` searches the tail. -/
theorem strchrSp_cons_ne (c : Char) (t : List Char) (h : ¬ c = ' ') :
    strchrSp (c :: t) = strchrSp t := by
  simp [strchrSp, h]

/-- Loop of supervisor.c `countEdges` (lines 272-279): each entry with a
non-`NULL` `ws` counts one token. -/
def countLoop (ws : List Char) : Nat :=
  let ws1 := if ws.head? = some ' ' then ws.tail else ws
  match h : strchrSp ws1 with
  | none => 1
  | some ws2 => 1 + countLoop ws2
termination_by ws.length
decreasing_by
  have hlen : ws2.length ≤ ws1.length := strchrSp_length_le ws1 ws2 h
  rcases hw : ws with _ | ⟨c, t⟩
  · subst hw; simp [strchrSp] at h
  · subst hw
    by_cases hc : c = ' '
    · have : ws1 = t := by simp [ws1, hc]
      rw [this] at hlen
      simpa using Nat.lt_succ_of_le hlen
    · have hws1 : ws1 = c :: t := by simp [ws1, hc]
      rw [hws1, strchrSp_cons_ne c t hc] at h
      have := strchrSp_length_le t ws2 h
      simpa using Nat.lt_succ_of_le this

/-- Model of supervisor.c `countEdges` (lines 268-281): `0` on the empty
record, otherwise the space-jump counting loop. -/
def countEdges (s : List Char) : Nat :=
  if s.length = 0 then 0 else countLoop s

/-! ### Circular-buffer read (supervisor.c circ_buf_read, lines 283-286)

`snprintf(buf, MAX_LINE, "%s", myshm->shm_buf[*read_pos])` copies at most
`MAX_LINE - 1` characters of the source (the bytes starting at the slot, up
to the first NUL, wherever that NUL may lie) and always NUL-terminates the
destination; then the private read cursor advances by one modulo `BUF_LEN`.
`mem` below is the byte sequence in memory starting at the slot. -/

/-- The string `circ_buf_read` stores into the caller's buffer. -/
def circBufReadStr (mem : List Char) : List Char :=
  (mem.takeWhile (fun c => c ≠ '\x00')).take (MAX_LINE - 1)

/-- The read-cursor update performed by `circ_buf_read`. -/
def circBufReadNextPos (p : Nat) : Nat := (p + 1) % BUF_LEN

/-- Space-separated join with an accumulator, describing how the record
buffer grows across successive conflict appends starting from `b`. -/
def joinAcc (b : List Char) (ts : List (List Char)) : List Char :=
  match ts with
  | [] => b
  | t :: rest => joinAcc (if b.length > 0 then b ++ ' ' :: t else b ++ t) rest

/-- Edge list of the C4 failing input: nine self-loops `0-0` followed by
three edges `0-10` (the self-loops always conflict; with constant random
draws the `0-10` edges conflict too). -/
def c4Edges : List (Nat × Nat) :=
  List.replicate 9 (0, 0) ++ List.replicate 3 (0, 10)

/-- Argument strings of the C4 failing input; the twelve conflicting
tokens join to exactly `MAX_LINE` (50) characters. -/
def c4Toks : List (List Char) :=
  List.replicate 9 "0-0".data ++ List.replicate 3 "0-10".data

/-! ### The coordination protocol as a labelled transition system

supervisor.c `main` (lines 119-205) and generator.c `main` publish loop
(lines 179-196) over the shared memory (`state` flag, `write_pos` cursor,
`BUF_LEN` slots) and the three semaphores.  One supervisor process and `n`
generator processes run concurrently; each labelled step is one shared-
memory access or one semaphore operation of one process (each such C
operation is a single syscall / single int access, the grain at which the
OS interleaves the processes).

Semaphores are counters; `sem_wait` requires a positive value and
decrements, `sem_post` increments.  The supervisor installed handlers for
SIGINT/SIGTERM, so its `sem_wait` calls can also fail with `EINTR`
(modelled as a nondeterministic alternative); the generators install no
handlers, so their waits only return on success.  `sem_post` never blocks;
its theoretical failure paths in the C code are not taken.

Record contents are abstracted: `written`/`consumed` count publishes and
successful consumes, and the supervisor's branch on the conflict count of
the record it has read (supervisor.c lines 186-194) is nondeterministic
here.  `bestSolution` and the local `edges` buffer do not influence the
shared state and are omitted.  A producer's `sawStop` ghost bit records
that it took the `else quit = 1` branch after reading a nonzero flag
(generator.c line 192). -/

/-- Control locations of a generator's publish loop (generator.c 179-196).
`pLoop` is the top of the `while` (about to run `generate3coloring`);
`pMutexWait` is at `sem_wait(sem_mutex)`; `pCheck` holds the mutex, about
to read `myshm->state`; `pFreeWait` is at `sem_wait(sem_free)`; `pWrite`
at `circ_buf_write`; `pPostUsed` at `sem_post(sem_used)`; `pMutexPostW` /
`pMutexPostQ` at the final `sem_post(sem_mutex)` on the write / quit
branch; `pDone` is after the loop (`exit(EXIT_SUCCESS)`). -/
inductive PLoc where
  | pLoop
  | pMutexWait
  | pCheck
  | pFreeWait
  | pWrite
  | pPostUsed
  | pMutexPostW
  | pMutexPostQ
  | pDone
deriving DecidableEq, Repr

/-- Control locations of the supervisor (supervisor.c 152-204).
`sInitWait` is at the initial `sem_wait(sem_mutex)` (line 152); `sInitSet
got` is about to write `state`/`write_pos` (lines 156-157), `got` recording
whether the wait succeeded (on `EINTR` it proceeds without the mutex);
`sInitPost got` at `sem_post(sem_mutex)` (line 158); `sLoopWait` at
`sem_wait(sem_used)` (line 171); `sRead got` at `circ_buf_read` (line 176),
`got = false` after an `EINTR` (`quit = 1`, line 174); `sPostFree got` at
`sem_post(sem_free)` (line 177); `sCheck got` at `if (quit != 0) break`
(line 183); `sCompute` in the conflict-count branch (lines 186-194);
`sZeroConf` after `myshm->state = 1` on a zero-conflict record (line 191);
`sFinal1` at the post-loop `myshm->state = 1` (line 198); `sFinalPost` at
the final `sem_post(sem_free)` (line 199); `sDone` at exit. -/
inductive SupLoc where
  | sInitWait
  | sInitSet (got : Bool)
  | sInitPost (got : Bool)
  | sLoopWait
  | sRead (got : Bool)
  | sPostFree (got : Bool)
  | sCheck (got : Bool)
  | sCompute
  | sZeroConf
  | sFinal1
  | sFinalPost
  | sDone
deriving DecidableEq, Repr

/-- Global state: shared memory (`flag` = `myshm->state`, `writePos` =
`myshm->write_pos`), the supervisor-private read cursor, the three
semaphore values, ghost publish/consume counters, the ghost `initIntr` bit
(the supervisor's initial mutex wait was interrupted), the supervisor
location and each producer's location plus `sawStop` ghost bit. -/
structure Sys where
  flag : Nat
  writePos : Nat
  readPos : Nat
  used : Nat
  free : Nat
  mutex : Nat
  written : Nat
  consumed : Nat
  initIntr : Bool
  sup : SupLoc
  prods : List (PLoc × Bool)
deriving DecidableEq, Repr

/-- Step labels: one per shared-memory access or semaphore operation. -/
inductive Act where
  | pGen
  | pDiscard
  | pAcqMutex
  | pFlagZero
  | pObserveStop
  | pAcqFree
  | pWriteRec
  | pPostUsed
  | pPostMutexW
  | pPostMutexQ
  | sAcqMutex
  | sInitIntr
  | sInitVars
  | sInitPostMutex
  | sWhileExit
  | sAcqUsed
  | sUsedIntr
  | sReadRec
  | sPostFreeStep
  | sCheckCont
  | sCheckBreak
  | sNextIter
  | sSigExit
  | sSetFlagZero
  | sBreakZero
  | sSetFlagFinal
  | sPostFreeFinal
deriving DecidableEq, Repr

/-- One interleaved step of the system.  Producer steps are given by a
decomposition `prods = l₁ ++ p :: l₂` of the producer list at the acting
producer.  Each constructor mirrors one operation of the C sources (see
the location documentation above). -/
inductive Step : Sys → Act → Sys → Prop where
  | pGen {s : Sys} (l₁ : List (PLoc × Bool)) (b : Bool) (l₂ : List (PLoc × Bool))
      (h : s.prods = l₁ ++ (PLoc.pLoop, b) :: l₂) :
      Step s .pGen { s with prods := l₁ ++ (PLoc.pMutexWait, b) :: l₂ }
  | pDiscard {s : Sys} (l₁ : List (PLoc × Bool)) (b : Bool) (l₂ : List (PLoc × Bool))
      (h : s.prods = l₁ ++ (PLoc.pLoop, b) :: l₂) :
      Step s .pDiscard s
  | pAcqMutex {s : Sys} (l₁ : List (PLoc × Bool)) (b : Bool) (l₂ : List (PLoc × Bool))
      (h : s.prods = l₁ ++ (PLoc.pMutexWait, b) :: l₂) (hm : 0 < s.mutex) :
      Step s .pAcqMutex
        { s with mutex := s.mutex - 1, prods := l₁ ++ (PLoc.pCheck, b) :: l₂ }
  | pFlagZero {s : Sys} (l₁ : List (PLoc × Bool)) (b : Bool) (l₂ : List (PLoc × Bool))
      (h : s.prods = l₁ ++ (PLoc.pCheck, b) :: l₂) (hf : s.flag = 0) :
      Step s .pFlagZero { s with prods := l₁ ++ (PLoc.pFreeWait, b) :: l₂ }
  | pObserveStop {s : Sys} (l₁ : List (PLoc × Bool)) (b : Bool) (l₂ : List (PLoc × Bool))
      (h : s.prods = l₁ ++ (PLoc.pCheck, b) :: l₂) (hf : s.flag ≠ 0) :
      Step s .pObserveStop { s with prods := l₁ ++ (PLoc.pMutexPostQ, true) :: l₂ }
  | pAcqFree {s : Sys} (l₁ : List (PLoc × Bool)) (b : Bool) (l₂ : List (PLoc × Bool))
      (h : s.prods = l₁ ++ (PLoc.pFreeWait, b) :: l₂) (hm : 0 < s.free) :
      Step s .pAcqFree
        { s with free := s.free - 1, prods := l₁ ++ (PLoc.pWrite, b) :: l₂ }
  | pWriteRec {s : Sys} (l₁ : List (PLoc × Bool)) (b : Bool) (l₂ : List (PLoc × Bool))
      (h : s.prods = l₁ ++ (PLoc.pWrite, b) :: l₂) :
      Step s .pWriteRec
        { s with written := s.written + 1, writePos := (s.writePos + 1) % BUF_LEN,
                 prods := l₁ ++ (PLoc.pPostUsed, b) :: l₂ }
  | pPostUsed {s : Sys} (l₁ : List (PLoc × Bool)) (b : Bool) (l₂ : List (PLoc × Bool))
      (h : s.prods = l₁ ++ (PLoc.pPostUsed, b) :: l₂) :
      Step s .pPostUsed
        { s with used := s.used + 1, prods := l₁ ++ (PLoc.pMutexPostW, b) :: l₂ }
  | pPostMutexW {s : Sys} (l₁ : List (PLoc × Bool)) (b : Bool) (l₂ : List (PLoc × Bool))
      (h : s.prods = l₁ ++ (PLoc.pMutexPostW, b) :: l₂) :
      Step s .pPostMutexW
        { s with mutex := s.mutex + 1, prods := l₁ ++ (PLoc.pLoop, b) :: l₂ }
  | pPostMutexQ {s : Sys} (l₁ : List (PLoc × Bool)) (b : Bool) (l₂ : List (PLoc × Bool))
      (h : s.prods = l₁ ++ (PLoc.pMutexPostQ, b) :: l₂) :
      Step s .pPostMutexQ
        { s with mutex := s.mutex + 1, prods := l₁ ++ (PLoc.pDone, b) :: l₂ }
  | sAcqMutex {s : Sys} (h : s.sup = .sInitWait) (hm : 0 < s.mutex) :
      Step s .sAcqMutex { s with mutex := s.mutex - 1, sup := .sInitSet true }
  | sInitIntr {s : Sys} (h : s.sup = .sInitWait) :
      Step s .sInitIntr { s with initIntr := true, sup := .sInitSet false }
  | sInitVars {s : Sys} {g : Bool} (h : s.sup = .sInitSet g) :
      Step s .sInitVars { s with flag := 0, writePos := 0, sup := .sInitPost g }
  | sInitPostMutex {s : Sys} {g : Bool} (h : s.sup = .sInitPost g) :
      Step s .sInitPostMutex { s with mutex := s.mutex + 1, sup := .sLoopWait }
  | sWhileExit {s : Sys} (h : s.sup = .sLoopWait) :
      Step s .sWhileExit { s with sup := .sFinal1 }
  | sAcqUsed {s : Sys} (h : s.sup = .sLoopWait) (hu : 0 < s.used) :
      Step s .sAcqUsed { s with used := s.used - 1, sup := .sRead true }
  | sUsedIntr {s : Sys} (h : s.sup = .sLoopWait) :
      Step s .sUsedIntr { s with sup := .sRead false }
  | sReadRec {s : Sys} {g : Bool} (h : s.sup = .sRead g) :
      Step s .sReadRec
        { s with readPos := (s.readPos + 1) % BUF_LEN,
                 consumed := s.consumed + (if g then 1 else 0), sup := .sPostFree g }
  | sPostFreeStep {s : Sys} {g : Bool} (h : s.sup = .sPostFree g) :
      Step s .sPostFreeStep { s with free := s.free + 1, sup := .sCheck g }
  | sCheckCont {s : Sys} (h : s.sup = .sCheck true) :
      Step s .sCheckCont { s with sup := .sCompute }
  | sCheckBreak {s : Sys} (h : s.sup = .sCheck false) :
      Step s .sCheckBreak { s with sup := .sFinal1 }
  | sNextIter {s : Sys} (h : s.sup = .sCompute) :
      Step s .sNextIter { s with sup := .sLoopWait }
  | sSigExit {s : Sys} (h : s.sup = .sCompute) :
      Step s .sSigExit { s with sup := .sFinal1 }
  | sSetFlagZero {s : Sys} (h : s.sup = .sCompute) :
      Step s .sSetFlagZero { s with flag := 1, sup := .sZeroConf }
  | sBreakZero {s : Sys} (h : s.sup = .sZeroConf) :
      Step s .sBreakZero { s with sup := .sFinal1 }
  | sSetFlagFinal {s : Sys} (h : s.sup = .sFinal1) :
      Step s .sSetFlagFinal { s with flag := 1, sup := .sFinalPost }
  | sPostFreeFinal {s : Sys} (h : s.sup = .sFinalPost) :
      Step s .sPostFreeFinal { s with free := s.free + 1, sup := .sDone }

/-- Initial state: shared memory freshly created (`ftruncate` zero-fills,
so `state = 0` and `write_pos = 0` even before the supervisor's own
initialisation), semaphores at their creation values `used = 0`,
`free = BUF_LEN`, `mutex = 1` (supervisor.c lines 139-147), the supervisor
before its initial mutex wait, and `n` producers at the top of their
publish loops. -/
def initSys (n : Nat) : Sys :=
  { flag := 0, writePos := 0, readPos := 0, used := 0, free := BUF_LEN,
    mutex := 1, written := 0, consumed := 0, initIntr := false,
    sup := .sInitWait, prods := List.replicate n (PLoc.pLoop, false) }

/-- Reachability from the initial state with `n` producers. -/
inductive Reach (n : Nat) : Sys → Prop where
  | init : Reach n (initSys n)
  | step {s : Sys} {a : Act} {s' : Sys} : Reach n s → Step s a s' → Reach n s'

/-- Producer holds a free-slot token: it is between its successful
`sem_wait(sem_free)` and its `sem_post(sem_used)`. -/
def freeTokL : PLoc → Bool
  | .pWrite => true
  | .pPostUsed => true
  | _ => false

/-- Producer has written its record but not yet posted `sem_used`. -/
def wroteTokL : PLoc → Bool
  | .pPostUsed => true
  | _ => false

/-- Producer is inside its write-mutex critical section (it has performed a
successful `sem_wait(sem_mutex)` and not yet the matching post). -/
def inCSL : PLoc → Bool
  | .pCheck => true
  | .pFreeWait => true
  | .pWrite => true
  | .pPostUsed => true
  | .pMutexPostW => true
  | .pMutexPostQ => true
  | _ => false

/-- Supervisor holds the write-mutex (initialisation critical section,
entered by a successful wait). -/
def supHoldsMutex : SupLoc → Bool
  | .sInitSet true => true
  | .sInitPost true => true
  | _ => false

/-- Supervisor critical-section count for the mutex accounting (1 exactly
when `supHoldsMutex`). -/
def supCSCnt : SupLoc → Nat
  | .sInitSet true => 1
  | .sInitPost true => 1
  | _ => 0

/-- Supervisor holds a slot token: it is between a successful
`sem_wait(sem_used)` and the matching `sem_post(sem_free)`. -/
def supSlotTok : SupLoc → Nat
  | .sRead true => 1
  | .sPostFree true => 1
  | _ => 0

/-- Supervisor has decremented `used` but not yet read the record. -/
def supReadTok : SupLoc → Nat
  | .sRead true => 1
  | _ => 0

/-- Supervisor locations of normal operation: it has neither taken the
interrupted-wait (`EINTR`) branch of its used-slots wait nor begun the
stop announcement. -/
def goodSup : SupLoc → Bool
  | .sInitWait => true
  | .sInitSet _ => true
  | .sInitPost _ => true
  | .sLoopWait => true
  | .sRead g => g
  | .sPostFree g => g
  | .sCheck g => g
  | .sCompute => true
  | _ => false

/-- Number of producers currently holding a free-slot token. -/
def cntFree (s : Sys) : Nat := s.prods.countP (fun p => freeTokL p.1)

/-- Number of producers that have written but not yet posted `sem_used`. -/
def cntWrote (s : Sys) : Nat := s.prods.countP (fun p => wroteTokL p.1)

/-- Number of producers inside the write-mutex critical section. -/
def cntCS (s : Sys) : Nat := s.prods.countP (fun p => inCSL p.1)

/-- No publish or consume is half-way through one of its semaphore-guarded
phases: no producer holds a free-slot token and the supervisor is not
between its used-wait and its free-post. -/
def quiescent (s : Sys) : Prop :=
  cntFree s = 0 ∧ cntWrote s = 0 ∧ supSlotTok s.sup = 0 ∧ supReadTok s.sup = 0

/-! ### Concrete reachable states used as witnesses and counterexamples -/

/-- State reached with zero producers when `SIGINT` interrupts the
supervisor's first `sem_wait(sem_used)`: the `EINTR` branch has executed
`circ_buf_read` and `sem_post(sem_free)` (supervisor.c lines 171-181), so
`free = 65` although `used = 0` and nothing was ever published. -/
def supIntrState : Sys :=
  { flag := 0, writePos := 0, readPos := 1, used := 0, free := 65, mutex := 1,
    written := 0, consumed := 0, initIntr := false, sup := .sCheck false,
    prods := [] }

/-- One step later: the supervisor has taken the `break` and sits at the
post-loop `myshm->state = 1` (supervisor.c line 198), holding no mutex. -/
def supFinal1State : Sys := { supIntrState with sup := .sFinal1 }

/-- Successor of `supFinal1State` by the unprotected flag write. -/
def supFinal1PostState : Sys :=
  { supFinal1State with flag := 1, sup := .sFinalPost }

/-- With one producer: the supervisor has completely shut down (flag set,
extra free post done) and the producer has entered its critical section and
observed the stopping flag (generator.c line 192). -/
def stopObservedState : Sys :=
  { flag := 1, writePos := 0, readPos := 1, used := 0, free := 66, mutex := 0,
    written := 0, consumed := 0, initIntr := false, sup := .sDone,
    prods := [(.pMutexPostQ, true)] }

/-- With one producer: the supervisor finished initialisation and the
producer is inside its critical section at `circ_buf_write`, having
acquired the mutex and one free slot. -/
def atWriteState : Sys :=
  { flag := 0, writePos := 0, readPos := 0, used := 0, free := 63, mutex := 0,
    written := 0, consumed := 0, initIntr := false, sup := .sLoopWait,
    prods := [(.pWrite, false)] }

/-- With one producer: one record has been fully published and no consume
has started — a quiescent state of normal operation. -/
def publishQuietState : Sys :=
  { flag := 0, writePos := 1, readPos := 0, used := 1, free := 63, mutex := 1,
    written := 1, consumed := 0, initIntr := false, sup := .sLoopWait,
    prods := [(.pLoop, false)] }

/-- Counting elements of a list decomposed around one element. -/
theorem countP_mid (f : PLoc × Bool → Bool) (l₁ l₂ : List (PLoc × Bool))
    (x : PLoc × Bool) :
    (l₁ ++ x :: l₂).countP f = l₁.countP f + l₂.countP f + (if f x then 1 else 0) := by
  simp [List.countP_append, List.countP_cons]
  omega

/-- A producer whose `sawStop` bit is set sits at the middle of the
decomposition. -/
theorem saw_mid {l₁ l₂ : List (PLoc × Bool)} {a : PLoc} {bb : Bool}
    (H : ∀ p ∈ l₁ ++ (a, bb) :: l₂, p.2 = true →
      p.1 = PLoc.pMutexPostQ ∨ p.1 = PLoc.pDone) :
    bb = true → a = PLoc.pMutexPostQ ∨ a = PLoc.pDone :=
  fun hb => H (a, bb) (by simp) hb

/-- The `sawStop` location invariant is preserved when one producer moves,
provided the moved producer itself still satisfies it. -/
theorem saw_update {l₁ l₂ : List (PLoc × Bool)} {a b : PLoc} {bb bb' : Bool}
    (H : ∀ p ∈ l₁ ++ (a, bb) :: l₂, p.2 = true →
      p.1 = PLoc.pMutexPostQ ∨ p.1 = PLoc.pDone)
    (hx : bb' = true → b = PLoc.pMutexPostQ ∨ b = PLoc.pDone) :
    ∀ p ∈ l₁ ++ (b, bb') :: l₂, p.2 = true →
      p.1 = PLoc.pMutexPostQ ∨ p.1 = PLoc.pDone := by
  intro p hp hps
  rcases List.mem_append.1 hp with h1 | h2
  · exact H p (List.mem_append.2 (Or.inl h1)) hps
  · rcases List.mem_cons.1 h2 with h3 | h4
    · subst h3; exact hx hps
    · exact H p (List.mem_append.2 (Or.inr (List.mem_cons_of_mem _ h4))) hps

/-- Once a producer has observed the stopping flag (its `sawStop` ghost bit
is set, generator.c line 192-193), it is at the final mutex release of the
quit branch or already past its loop — locations from which the step
relation admits no record write (`pWrite`) and no free-slots wait
(`pFreeWait`). -/
theorem reach_saw {n : Nat} {s : Sys} (h : Reach n s) :
    ∀ p ∈ s.prods, p.2 = true → p.1 = PLoc.pMutexPostQ ∨ p.1 = PLoc.pDone := by
  induction h with
  | init =>
    intro p hp hc
    have he := List.eq_of_mem_replicate hp
    rw [he] at hc
    simp at hc
  | step hr hstep ih =>
    cases hstep with
    | pGen l₁ b l₂ h =>
      rw [h] at ih
      exact saw_update ih (fun hb => absurd (saw_mid ih hb) (by decide))
    | pDiscard l₁ b l₂ h => exact ih
    | pAcqMutex l₁ b l₂ h hm =>
      rw [h] at ih
      exact saw_update ih (fun hb => absurd (saw_mid ih hb) (by decide))
    | pFlagZero l₁ b l₂ h hf =>
      rw [h] at ih
      exact saw_update ih (fun hb => absurd (saw_mid ih hb) (by decide))
    | pObserveStop l₁ b l₂ h hf =>
      rw [h] at ih
      exact saw_update ih (fun _ => Or.inl rfl)
    | pAcqFree l₁ b l₂ h hm =>
      rw [h] at ih
      exact saw_update ih (fun hb => absurd (saw_mid ih hb) (by decide))
    | pWriteRec l₁ b l₂ h =>
      rw [h] at ih
      exact saw_update ih (fun hb => absurd (saw_mid ih hb) (by decide))
    | pPostUsed l₁ b l₂ h =>
      rw [h] at ih
      exact saw_update ih (fun hb => absurd (saw_mid ih hb) (by decide))
    | pPostMutexW l₁ b l₂ h =>
      rw [h] at ih
      exact saw_update ih (fun hb => absurd (saw_mid ih hb) (by decide))
    | pPostMutexQ l₁ b l₂ h =>
      rw [h] at ih
      exact saw_update ih (fun _ => Or.inr rfl)
    | sAcqMutex h hm => exact ih
    | sInitIntr h => exact ih
    | sInitVars h => exact ih
    | sInitPostMutex h => exact ih
    | sWhileExit h => exact ih
    | sAcqUsed h hu => exact ih
    | sUsedIntr h => exact ih
    | sReadRec h => exact ih
    | sPostFreeStep h => exact ih
    | sCheckCont h => exact ih
    | sCheckBreak h => exact ih
    | sNextIter h => exact ih
    | sSigExit h => exact ih
    | sSetFlagZero h => exact ih
    | sBreakZero h => exact ih
    | sSetFlagFinal h => exact ih
    | sPostFreeFinal h => exact ih

/-- Semaphore/slot accounting invariant of normal operation.  While the
supervisor has neither taken the `EINTR` branch of its used-slots wait nor
begun announcing stop: the slot capacity `BUF_LEN` is split between
`free`, `used`, the free-slot tokens held by mid-publish producers and the
slot token held by a mid-consume supervisor; and the published records are
split between consumed ones, `used`, records written but not yet posted,
and a record claimed by the supervisor but not yet read. -/
theorem reach_count {n : Nat} {s : Sys} (h : Reach n s) :
    goodSup s.sup = true →
    s.used + s.free + cntFree s + supSlotTok s.sup = BUF_LEN ∧
    s.written = s.consumed + s.used + cntWrote s + supReadTok s.sup := by
  induction h with
  | init =>
    intro _
    have hzf : (List.replicate n (PLoc.pLoop, false)).countP (fun p => freeTokL p.1) = 0 :=
      List.countP_eq_zero.mpr (by
        intro a ha
        rw [List.eq_of_mem_replicate ha]
        decide)
    have hzw : (List.replicate n (PLoc.pLoop, false)).countP (fun p => wroteTokL p.1) = 0 :=
      List.countP_eq_zero.mpr (by
        intro a ha
        rw [List.eq_of_mem_replicate ha]
        decide)
    constructor <;> simp [initSys, cntFree, cntWrote, supSlotTok, supReadTok, hzf, hzw]
  | step hr hstep ih =>
    intro hg
    cases hstep with
    | pGen l₁ b l₂ h =>
      obtain ⟨e1, e2⟩ := ih hg
      simp [cntFree, cntWrote, h, countP_mid, freeTokL, wroteTokL] at e1 e2 ⊢
      omega
    | pDiscard l₁ b l₂ h => exact ih hg
    | pAcqMutex l₁ b l₂ h hm =>
      obtain ⟨e1, e2⟩ := ih hg
      simp [cntFree, cntWrote, h, countP_mid, freeTokL, wroteTokL] at e1 e2 ⊢
      omega
    | pFlagZero l₁ b l₂ h hf =>
      obtain ⟨e1, e2⟩ := ih hg
      simp [cntFree, cntWrote, h, countP_mid, freeTokL, wroteTokL] at e1 e2 ⊢
      omega
    | pObserveStop l₁ b l₂ h hf =>
      obtain ⟨e1, e2⟩ := ih hg
      simp [cntFree, cntWrote, h, countP_mid, freeTokL, wroteTokL] at e1 e2 ⊢
      omega
    | pAcqFree l₁ b l₂ h hm =>
      obtain ⟨e1, e2⟩ := ih hg
      simp [cntFree, cntWrote, h, countP_mid, freeTokL, wroteTokL] at e1 e2 ⊢
      omega
    | pWriteRec l₁ b l₂ h =>
      obtain ⟨e1, e2⟩ := ih hg
      simp [cntFree, cntWrote, h, countP_mid, freeTokL, wroteTokL] at e1 e2 ⊢
      omega
    | pPostUsed l₁ b l₂ h =>
      obtain ⟨e1, e2⟩ := ih hg
      simp [cntFree, cntWrote, h, countP_mid, freeTokL, wroteTokL] at e1 e2 ⊢
      omega
    | pPostMutexW l₁ b l₂ h =>
      obtain ⟨e1, e2⟩ := ih hg
      simp [cntFree, cntWrote, h, countP_mid, freeTokL, wroteTokL] at e1 e2 ⊢
      omega
    | pPostMutexQ l₁ b l₂ h =>
      obtain ⟨e1, e2⟩ := ih hg
      simp [cntFree, cntWrote, h, countP_mid, freeTokL, wroteTokL] at e1 e2 ⊢
      omega
    | sAcqMutex h hm =>
      obtain ⟨e1, e2⟩ := ih (by rw [h]; rfl)
      simp [cntFree, cntWrote, h, supSlotTok, supReadTok] at e1 e2 ⊢
      omega
    | sInitIntr h =>
      obtain ⟨e1, e2⟩ := ih (by rw [h]; rfl)
      simp [cntFree, cntWrote, h, supSlotTok, supReadTok] at e1 e2 ⊢
      omega
    | sInitVars h =>
      obtain ⟨e1, e2⟩ := ih (by rw [h]; rfl)
      simp [cntFree, cntWrote, h, supSlotTok, supReadTok] at e1 e2 ⊢
      omega
    | sInitPostMutex h =>
      obtain ⟨e1, e2⟩ := ih (by rw [h]; rfl)
      simp [cntFree, cntWrote, h, supSlotTok, supReadTok] at e1 e2 ⊢
      omega
    | sWhileExit h => simp [goodSup] at hg
    | sAcqUsed h hu =>
      obtain ⟨e1, e2⟩ := ih (by rw [h]; rfl)
      simp [cntFree, cntWrote, h, supSlotTok, supReadTok] at e1 e2 ⊢
      omega
    | sUsedIntr h => simp [goodSup] at hg
    | @sReadRec g h =>
      have hgt : g = true := by simpa [goodSup] using hg
      subst hgt
      obtain ⟨e1, e2⟩ := ih (by rw [h]; rfl)
      simp [cntFree, cntWrote, h, supSlotTok, supReadTok] at e1 e2 ⊢
      omega
    | @sPostFreeStep g h =>
      have hgt : g = true := by simpa [goodSup] using hg
      subst hgt
      obtain ⟨e1, e2⟩ := ih (by rw [h]; rfl)
      simp [cntFree, cntWrote, h, supSlotTok, supReadTok] at e1 e2 ⊢
      omega
    | sCheckCont h =>
      obtain ⟨e1, e2⟩ := ih (by rw [h]; rfl)
      simp [cntFree, cntWrote, h, supSlotTok, supReadTok] at e1 e2 ⊢
      omega
    | sCheckBreak h => simp [goodSup] at hg
    | sNextIter h =>
      obtain ⟨e1, e2⟩ := ih (by rw [h]; rfl)
      simp [cntFree, cntWrote, h, supSlotTok, supReadTok] at e1 e2 ⊢
      omega
    | sSigExit h => simp [goodSup] at hg
    | sSetFlagZero h => simp [goodSup] at hg
    | sBreakZero h => simp [goodSup] at hg
    | sSetFlagFinal h => simp [goodSup] at hg
    | sPostFreeFinal h => simp [goodSup] at hg

/-- Mutual exclusion of the write-mutex: unless the supervisor's initial
mutex wait was interrupted (in which case supervisor.c line 158 posts a
mutex it never acquired), the mutex value plus the number of processes
inside a write-mutex critical section is exactly one; moreover the
supervisor is then never at the `got = false` initialisation locations. -/
theorem reach_mutex {n : Nat} {s : Sys} (h : Reach n s) :
    s.initIntr = false →
    s.mutex + cntCS s + supCSCnt s.sup = 1 ∧
    s.sup ≠ SupLoc.sInitSet false ∧ s.sup ≠ SupLoc.sInitPost false := by
  induction h with
  | init =>
    intro _
    have hz : (List.replicate n (PLoc.pLoop, false)).countP (fun p => inCSL p.1) = 0 :=
      List.countP_eq_zero.mpr (by
        intro a ha
        rw [List.eq_of_mem_replicate ha]
        decide)
    refine ⟨?_, by simp [initSys], by simp [initSys]⟩
    simp [initSys, cntCS, hz, supCSCnt]
  | step hr hstep ih =>
    intro hI
    cases hstep with
    | pGen l₁ b l₂ h =>
      obtain ⟨m, ne1, ne2⟩ := ih hI
      refine ⟨?_, ne1, ne2⟩
      simp [cntCS, h, countP_mid, inCSL] at m ⊢
      omega
    | pDiscard l₁ b l₂ h => exact ih hI
    | pAcqMutex l₁ b l₂ h hm =>
      obtain ⟨m, ne1, ne2⟩ := ih hI
      refine ⟨?_, ne1, ne2⟩
      simp [cntCS, h, countP_mid, inCSL] at m ⊢
      omega
    | pFlagZero l₁ b l₂ h hf =>
      obtain ⟨m, ne1, ne2⟩ := ih hI
      refine ⟨?_, ne1, ne2⟩
      simp [cntCS, h, countP_mid, inCSL] at m ⊢
      omega
    | pObserveStop l₁ b l₂ h hf =>
      obtain ⟨m, ne1, ne2⟩ := ih hI
      refine ⟨?_, ne1, ne2⟩
      simp [cntCS, h, countP_mid, inCSL] at m ⊢
      omega
    | pAcqFree l₁ b l₂ h hm =>
      obtain ⟨m, ne1, ne2⟩ := ih hI
      refine ⟨?_, ne1, ne2⟩
      simp [cntCS, h, countP_mid, inCSL] at m ⊢
      omega
    | pWriteRec l₁ b l₂ h =>
      obtain ⟨m, ne1, ne2⟩ := ih hI
      refine ⟨?_, ne1, ne2⟩
      simp [cntCS, h, countP_mid, inCSL] at m ⊢
      omega
    | pPostUsed l₁ b l₂ h =>
      obtain ⟨m, ne1, ne2⟩ := ih hI
      refine ⟨?_, ne1, ne2⟩
      simp [cntCS, h, countP_mid, inCSL] at m ⊢
      omega
    | pPostMutexW l₁ b l₂ h =>
      obtain ⟨m, ne1, ne2⟩ := ih hI
      refine ⟨?_, ne1, ne2⟩
      simp [cntCS, h, countP_mid, inCSL] at m ⊢
      omega
    | pPostMutexQ l₁ b l₂ h =>
      obtain ⟨m, ne1, ne2⟩ := ih hI
      refine ⟨?_, ne1, ne2⟩
      simp [cntCS, h, countP_mid, inCSL] at m ⊢
      omega
    | sAcqMutex h hm =>
      obtain ⟨m, ne1, ne2⟩ := ih hI
      refine ⟨?_, by simp, by simp⟩
      simp only [cntCS, supCSCnt, h] at m ⊢
      omega
    | sInitIntr h => simp at hI
    | @sInitVars g h =>
      obtain ⟨m, ne1, ne2⟩ := ih hI
      have hgt : g = true := by
        cases g
        · exact absurd h ne1
        · rfl
      subst hgt
      refine ⟨?_, by simp, by simp⟩
      simp only [cntCS, supCSCnt, h] at m ⊢
      omega
    | @sInitPostMutex g h =>
      obtain ⟨m, ne1, ne2⟩ := ih hI
      have hgt : g = true := by
        cases g
        · exact absurd h ne2
        · rfl
      subst hgt
      refine ⟨?_, by simp, by simp⟩
      simp only [cntCS, supCSCnt, h] at m ⊢
      omega
    | sWhileExit h =>
      obtain ⟨m, ne1, ne2⟩ := ih hI
      refine ⟨?_, by simp, by simp⟩
      simp only [cntCS, supCSCnt, h] at m ⊢
      omega
    | sAcqUsed h hu =>
      obtain ⟨m, ne1, ne2⟩ := ih hI
      refine ⟨?_, by simp, by simp⟩
      simp only [cntCS, supCSCnt, h] at m ⊢
      omega
    | sUsedIntr h =>
      obtain ⟨m, ne1, ne2⟩ := ih hI
      refine ⟨?_, by simp, by simp⟩
      simp only [cntCS, supCSCnt, h] at m ⊢
      omega
    | @sReadRec g h =>
      obtain ⟨m, ne1, ne2⟩ := ih hI
      refine ⟨?_, by simp, by simp⟩
      cases g <;> simp only [cntCS, supCSCnt, h] at m ⊢ <;> omega
    | @sPostFreeStep g h =>
      obtain ⟨m, ne1, ne2⟩ := ih hI
      refine ⟨?_, by simp, by simp⟩
      cases g <;> simp only [cntCS, supCSCnt, h] at m ⊢ <;> omega
    | sCheckCont h =>
      obtain ⟨m, ne1, ne2⟩ := ih hI
      refine ⟨?_, by simp, by simp⟩
      simp only [cntCS, supCSCnt, h] at m ⊢
      omega
    | sCheckBreak h =>
      obtain ⟨m, ne1, ne2⟩ := ih hI
      refine ⟨?_, by simp, by simp⟩
      simp only [cntCS, supCSCnt, h] at m ⊢
      omega
    | sNextIter h =>
      obtain ⟨m, ne1, ne2⟩ := ih hI
      refine ⟨?_, by simp, by simp⟩
      simp only [cntCS, supCSCnt, h] at m ⊢
      omega
    | sSigExit h =>
      obtain ⟨m, ne1, ne2⟩ := ih hI
      refine ⟨?_, by simp, by simp⟩
      simp only [cntCS, supCSCnt, h] at m ⊢
      omega
    | sSetFlagZero h =>
      obtain ⟨m, ne1, ne2⟩ := ih hI
      refine ⟨?_, by simp, by simp⟩
      simp only [cntCS, supCSCnt, h] at m ⊢
      omega
    | sBreakZero h =>
      obtain ⟨m, ne1, ne2⟩ := ih hI
      refine ⟨?_, by simp, by simp⟩
      simp only [cntCS, supCSCnt, h] at m ⊢
      omega
    | sSetFlagFinal h =>
      obtain ⟨m, ne1, ne2⟩ := ih hI
      refine ⟨?_, by simp, by simp⟩
      simp only [cntCS, supCSCnt, h] at m ⊢
      omega
    | sPostFreeFinal h =>
      obtain ⟨m, ne1, ne2⟩ := ih hI
      refine ⟨?_, by simp, by simp⟩
      simp only [cntCS, supCSCnt, h] at m ⊢
      omega

/-- The supervisor-only `EINTR` trace: init, interrupted used-wait, read,
free-post. -/
theorem reach_supIntrState : Reach 0 supIntrState := by
  have r0 : Reach 0 (initSys 0) := Reach.init
  have r1 := Reach.step r0 (Step.sAcqMutex rfl (by decide))
  have r2 := Reach.step r1 (Step.sInitVars rfl)
  have r3 := Reach.step r2 (Step.sInitPostMutex rfl)
  have r4 := Reach.step r3 (Step.sUsedIntr rfl)
  have r5 := Reach.step r4 (Step.sReadRec rfl)
  have r6 := Reach.step r5 (Step.sPostFreeStep rfl)
  exact r6

/-- Continuation of the `EINTR` trace to the post-loop flag write. -/
theorem reach_supFinal1State : Reach 0 supFinal1State :=
  Reach.step reach_supIntrState (Step.sCheckBreak rfl)

/-- Trace with one producer: supervisor runs its whole `EINTR` shutdown,
then the producer enters the mutex and observes the stopping flag. -/
theorem reach_stopObservedState : Reach 1 stopObservedState := by
  have r0 : Reach 1 (initSys 1) := Reach.init
  have r1 := Reach.step r0 (Step.sAcqMutex rfl (by decide))
  have r2 := Reach.step r1 (Step.sInitVars rfl)
  have r3 := Reach.step r2 (Step.sInitPostMutex rfl)
  have r4 := Reach.step r3 (Step.sUsedIntr rfl)
  have r5 := Reach.step r4 (Step.sReadRec rfl)
  have r6 := Reach.step r5 (Step.sPostFreeStep rfl)
  have r7 := Reach.step r6 (Step.sCheckBreak rfl)
  have r8 := Reach.step r7 (Step.sSetFlagFinal rfl)
  have r9 := Reach.step r8 (Step.sPostFreeFinal rfl)
  have r10 := Reach.step r9 (Step.pGen [] false [] rfl)
  have r11 := Reach.step r10 (Step.pAcqMutex [] false [] rfl (by decide))
  have r12 := Reach.step r11 (Step.pObserveStop [] false [] rfl (by decide))
  exact r12

/-- Trace with one producer up to the producer standing at
`circ_buf_write` inside its critical section. -/
theorem reach_atWriteState : Reach 1 atWriteState := by
  have r0 : Reach 1 (initSys 1) := Reach.init
  have r1 := Reach.step r0 (Step.sAcqMutex rfl (by decide))
  have r2 := Reach.step r1 (Step.sInitVars rfl)
  have r3 := Reach.step r2 (Step.sInitPostMutex rfl)
  have r4 := Reach.step r3 (Step.pGen [] false [] rfl)
  have r5 := Reach.step r4 (Step.pAcqMutex [] false [] rfl (by decide))
  have r6 := Reach.step r5 (Step.pFlagZero [] false [] rfl (by decide))
  have r7 := Reach.step r6 (Step.pAcqFree [] false [] rfl (by decide))
  exact r7

/-- Trace with one producer completing one full publish. -/
theorem reach_publishQuietState : Reach 1 publishQuietState := by
  have r7 := reach_atWriteState
  have r8 := Reach.step r7 (Step.pWriteRec [] false [] rfl)
  have r9 := Reach.step r8 (Step.pPostUsed [] false [] rfl)
  have r10 := Reach.step r9 (Step.pPostMutexW [] false [] rfl)
  exact r10

/-! ### Claim C1 -/

/-- C1 (counterexample): the claimed invariant "used-slots + free-slots =
BUF_LEN in every reachable state, including the interrupted-wait path" is
false.  After the supervisor's `sem_wait(sem_used)` is interrupted by a
signal, the code still executes `sem_post(sem_free)` (supervisor.c lines
171-181) without having decremented `used`, reaching a state with no
producer active, no record ever published or consumed, and
`used + free = 65 ≠ 64 = BUF_LEN` — so the number of empty slots (64) also
differs from `free` (65). -/
theorem c1_counterexample :
    Reach 0 supIntrState ∧
    supIntrState.used + supIntrState.free = BUF_LEN + 1 ∧
    supIntrState.written = 0 ∧ supIntrState.consumed = 0 ∧ BUF_LEN = 64 :=
  ⟨reach_supIntrState, rfl, rfl, rfl, rfl⟩

/-- C1 (amended): in every reachable state in which the coordinator has
neither taken the interrupted-wait branch of its used-slots wait nor begun
announcing stop (`goodSup`), and no publish or consume is mid-flight
(`quiescent`), the accounting invariant holds: the number of
published-but-unread records (`written - consumed`) equals `used`,
`used + free = BUF_LEN`, and hence the outstanding records never exceed
`BUF_LEN` and never go negative. -/
theorem c1_buffer_accounting {n : Nat} {s : Sys} (h : Reach n s)
    (hg : goodSup s.sup = true) (hq : quiescent s) :
    s.written = s.consumed + s.used ∧ s.used + s.free = BUF_LEN ∧
    s.used ≤ BUF_LEN := by
  obtain ⟨e1, e2⟩ := reach_count h hg
  obtain ⟨q1, q2, q3, q4⟩ := hq
  rw [q1, q3] at e1
  rw [q2, q4] at e2
  omega

/-- Witness for `c1_buffer_accounting` at the concrete reachable state in
which one producer has published exactly one record. -/
theorem c1_buffer_accounting_witness :
    goodSup publishQuietState.sup = true ∧ quiescent publishQuietState ∧
    (publishQuietState.written =
        publishQuietState.consumed + publishQuietState.used ∧
      publishQuietState.used + publishQuietState.free = BUF_LEN ∧
      publishQuietState.used ≤ BUF_LEN) :=
  ⟨rfl, ⟨rfl, rfl, rfl, rfl⟩,
    c1_buffer_accounting reach_publishQuietState rfl ⟨rfl, rfl, rfl, rfl⟩⟩

/-! ### Claim C2 -/

/-- C2: shutdown safety of the publish protocol.  A producer that has
observed the stopping flag (its ghost `sawStop` bit is set by the
`else quit = 1` branch, generator.c lines 192-193) is at the final mutex
release of the quit branch or past its loop; in particular it is never
again at `circ_buf_write` (`pWrite`, the only location from which `Step`
lets it write a record) nor at `sem_wait(sem_free)` (`pFreeWait`, the only
location from which it can block on free-slots).  The publish order itself
— acquire mutex, check flag, then either quit or wait-free / write /
post-used / release mutex — is the `Step` relation's producer fragment,
transcribed from generator.c lines 184-195. -/
theorem c2_no_write_after_stop {n : Nat} {s : Sys} (h : Reach n s) :
    ∀ p ∈ s.prods, p.2 = true →
      (p.1 = PLoc.pMutexPostQ ∨ p.1 = PLoc.pDone) ∧
      p.1 ≠ PLoc.pWrite ∧ p.1 ≠ PLoc.pFreeWait := by
  intro p hp hs
  have hd := reach_saw h p hp hs
  refine ⟨hd, ?_, ?_⟩ <;> rcases hd with h1 | h1 <;> rw [h1] <;> decide

/-- Witness for `c2_no_write_after_stop` at the concrete reachable state
in which the producer has just observed the stopping flag. -/
theorem c2_no_write_after_stop_witness :
    ((PLoc.pMutexPostQ, true) ∈ stopObservedState.prods ∧
      (PLoc.pMutexPostQ, true).2 = true) ∧
    ((PLoc.pMutexPostQ = PLoc.pMutexPostQ ∨ PLoc.pMutexPostQ = PLoc.pDone) ∧
      PLoc.pMutexPostQ ≠ PLoc.pWrite ∧ PLoc.pMutexPostQ ≠ PLoc.pFreeWait) :=
  ⟨⟨by decide, rfl⟩,
    c2_no_write_after_stop reach_stopObservedState (PLoc.pMutexPostQ, true)
      (by decide) rfl⟩

/-! ### Claim C9 -/

/-- C9 (counterexample): the coordinator mutates the shared termination
flag without holding `write-mutex`.  In the reachable state at the
post-loop `myshm->state = 1` (supervisor.c line 198) the mutex has value 1
(held by nobody) and the supervisor is not in any mutex-protected section,
yet the next step mutates the flag from 0 to 1.  (The in-loop
`myshm->state = 1` of line 191 is equally unprotected.) -/
theorem c9_counterexample :
    Reach 0 supFinal1State ∧
    Step supFinal1State Act.sSetFlagFinal supFinal1PostState ∧
    supHoldsMutex supFinal1State.sup = false ∧
    supFinal1State.mutex = 1 ∧
    supFinal1State.flag = 0 ∧ supFinal1PostState.flag = 1 :=
  ⟨reach_supFinal1State, Step.sSetFlagFinal rfl, rfl, rfl, rfl, rfl⟩

/-- C9 (amended): every mutation of the shared write cursor is performed
under `write-mutex` — provided the supervisor's initial mutex wait was not
interrupted: a producer step that writes (`circ_buf_write`, the only
producer mutation of `write_pos`) happens while the mutex value is 0, held
by that producer's critical section; and the supervisor's initialising
write of `state`/`write_pos` (supervisor.c lines 156-157) happens while it
holds the mutex. -/
theorem c9_cursor_mutexed {n : Nat} {s : Sys} (h : Reach n s)
    (hI : s.initIntr = false) :
    (∀ s', Step s Act.pWriteRec s' → s.mutex = 0) ∧
    (∀ s', Step s Act.sInitVars s' → supHoldsMutex s.sup = true) := by
  obtain ⟨m, ne1, ne2⟩ := reach_mutex h hI
  constructor
  · intro s' hst
    cases hst with
    | pWriteRec l₁ b l₂ hp =>
      have hc : cntCS s =
          l₁.countP (fun p => inCSL p.1) + l₂.countP (fun p => inCSL p.1) + 1 := by
        simp [cntCS, hp, countP_mid, inCSL]
        omega
      omega
  · intro s' hst
    cases hst with
    | @sInitVars g hsup =>
      cases g
      · exact absurd hsup ne1
      · rw [hsup]; rfl

/-- Witness for `c9_cursor_mutexed` at the concrete reachable state with a
producer standing at `circ_buf_write`. -/
theorem c9_cursor_mutexed_witness :
    atWriteState.initIntr = false ∧ atWriteState.mutex = 0 :=
  ⟨rfl,
    (c9_cursor_mutexed reach_atWriteState rfl).1 _
      (Step.pWriteRec [] false [] rfl)⟩

/-! ### Claim C5 -/

/-- C5 (counterexample): the Coordinator's creation of the shared memory
region is not exclusive.  `initSHM` uses `shm_open(SHM_NAME, O_RDWR |
O_CREAT, 0600)` without `O_EXCL` (supervisor.c line 218), so when an
object of that name already exists the call succeeds (it opens the
existing object) instead of failing fatally as the claim requires. -/
theorem c5_counterexample :
    supInitSHM true = OpenResult.ok ∧ OpenResult.ok ≠ OpenResult.err := by
  exact ⟨rfl, by decide⟩

/-- C5 (amended): each of the three semaphores is created exclusively by
the Coordinator (`sem_open` with `O_CREAT | O_EXCL` fails exactly when the
name already exists), and each Producer attachment to the shared memory
and to the semaphores is open-only (fails exactly when the name does not
exist); but the Coordinator's shared-memory creation uses `O_CREAT`
without `O_EXCL` and succeeds whether or not the name already exists. -/
theorem c5_creation_modes :
    (∀ e, supInitSEM e = OpenResult.ok ↔ e = false) ∧
    (supInitSHM true = OpenResult.ok ∧ supInitSHM false = OpenResult.ok) ∧
    (∀ e, genOpenSHM e = OpenResult.ok ↔ e = true) ∧
    (∀ e, genOpenSEM e = OpenResult.ok ↔ e = true) := by
  refine ⟨?_, ⟨rfl, rfl⟩, ?_, ?_⟩ <;> decide

/-! ### Claim C6 -/

/-- C6 (counterexample): for the malformed edge argument `"0-"` the
generator does exit with a failure code and a diagnostic naming the token,
but only after opening the shared memory and all three semaphores: the
first event of the startup trace is the shared-memory open and the parse
rejection is the last event, so the rejection does not precede resource
access. -/
theorem c6_counterexample :
    genStartup ["0-".data] =
      (opensList ++ [.evParseError "0-".data], true) ∧
    (genStartup ["0-".data]).1.head? = some GEvent.evOpenSHM := by
  exact ⟨rfl, rfl⟩

/-- C6 (amended): for every invocation whose arguments contain no
`getopt`-style option and at least one argument, if edge parsing fails
then the process exits with a failure code and a diagnostic naming the
first offending token — but only after the shared memory and the three
semaphores have been opened (generator.c opens resources at lines 149-159,
before `parseEdges` at line 166). -/
theorem c6_reject_after_attach (args : List (List Char)) (bad : List Char)
    (h1 : hasOptionArg args = false) (h2 : args ≠ [])
    (h3 : parseEdges args = .error bad) :
    genStartup args = (opensList ++ [.evParseError bad], true) := by
  have hne : args.isEmpty = false := by
    cases args
    · exact absurd rfl h2
    · rfl
  simp [genStartup, h1, hne, h3, opensList]

/-- Witness for `c6_reject_after_attach` on the malformed argument
`"a-b"`. -/
theorem c6_reject_after_attach_witness :
    hasOptionArg ["a-b".data] = false ∧ ["a-b".data] ≠ [] ∧
    parseEdges ["a-b".data] = .error "a-b".data ∧
    genStartup ["a-b".data] =
      (opensList ++ [.evParseError "a-b".data], true) :=
  ⟨rfl, by decide, rfl,
    c6_reject_after_attach ["a-b".data] "a-b".data rfl (by decide) rfl⟩

/-! ### Claim C7 -/

/-- C7: `parseEdge` does not accept exactly the strings of the form `U-V`
with `U`, `V` non-negative integers.  It does reject `"0-"` and `"a-b"`
(and plain `U-V` forms are accepted), but — because `strtol` skips leading
whitespace and accepts a sign — it also accepts `"3--1"` (storing the
negative node value `-1`, later used as a negative array index) and
`"+1-2"`, both of which the claim, the spec, and `parseEdge`'s own
documentation ("the format U-V with U and V being positive integers")
require to be rejected as malformed. -/
theorem c7_parse_accepts_malformed :
    parseEdge "3--1".data = some (3, -1) ∧
    parseEdge "+1-2".data = some (1, 2) ∧
    parseEdge " 7-2".data = some (7, 2) ∧
    parseEdge "0-".data = none ∧
    parseEdge "a-b".data = none ∧
    parseEdge "1-2".data = some (1, 2) := by
  refine ⟨?_, ?_, ?_, ?_, ?_, ?_⟩ <;> rfl

/-! ### Claim C10 -/

/-- C10: `circ_buf_read` always stores a NUL-terminated string of at most
`MAX_LINE - 1` characters in the caller's buffer — regardless of the bytes
in the slot, because `snprintf(buf, MAX_LINE, "%s", ...)` truncates the
copy at `MAX_LINE - 1` characters and always NUL-terminates (so the
copied characters contain no NUL) — and it advances the private read
cursor by exactly one modulo `BUF_LEN`. -/
theorem c10_read_bounded :
    ∀ (mem : List Char) (p : Nat),
      (circBufReadStr mem).length ≤ MAX_LINE - 1 ∧
      ' ' ∉ circBufReadStr mem ∧
      circBufReadNextPos p = (p + 1) % BUF_LEN := by
  intro mem p
  refine ⟨?_, ?_, rfl⟩
  · exact List.length_take_le _ _
  · intro hmem
    have h1 : (' ' : Char) ∈ mem.takeWhile (fun c => c ≠ ' ') :=
      List.mem_of_mem_take hmem
    have h2 := List.mem_takeWhile_imp h1
    simp at h2

/-! ### Coloring-engine lemmas (towards C3, C4, C8) -/

/-- Setting an index then reading it back (in range). -/
theorem getD_set_self (l : List Nat) (i x d : Nat) (h : i < l.length) :
    (l.set i x).getD i d = x := by
  simp [List.getD_eq_getElem?_getD, List.getElem?_set_self',
    List.getElem?_eq_getElem h]

/-- Setting one index leaves the others unchanged. -/
theorem getD_set_ne (l : List Nat) (i j x d : Nat) (h : i ≠ j) :
    (l.set i x).getD j d = l.getD j d := by
  simp [List.getD_eq_getElem?_getD, List.getElem?_set_ne h]

/-- A successful `appendTok` appends the separating space (when the buffer
is nonempty) and the whole token — never a truncation — and keeps the
buffer length at most `MAX_LINE`. -/
theorem appendTok_some {buf tok b2 : List Char} (hne : tok ≠ [])
    (hb : buf.length ≤ MAX_LINE) (h : appendTok buf tok = some b2) :
    b2 = (if buf.length > 0 then buf ++ ' ' :: tok else buf ++ tok) ∧
    b2.length ≤ MAX_LINE := by
  have htok : 0 < tok.length := List.length_pos.mpr hne
  unfold appendTok at h
  by_cases h0 : buf.length > 0
  · simp only [h0, if_true] at h ⊢
    by_cases h50 : buf.length = MAX_LINE
    · exfalso
      have hb1 : strncatB buf [' '] = buf := by
        simp [strncatB, h50]
      rw [hb1, h50] at h
      simp only [Nat.sub_self] at h
      rw [if_pos htok] at h
      exact Option.noConfusion h
    · have hlt : buf.length < MAX_LINE := Nat.lt_of_le_of_ne hb h50
      have hb1 : strncatB buf [' '] = buf ++ [' '] := by
        have hw : ([' '] : List Char).length ≤ MAX_LINE - buf.length := by
          simp
          omega
        simp [strncatB, List.take_of_length_le hw]
      rw [hb1] at h
      by_cases hc : MAX_LINE - (buf ++ [' ']).length < tok.length
      · rw [if_pos hc] at h
        exact Option.noConfusion h
      · rw [if_neg hc] at h
        have htk : tok.length ≤ MAX_LINE - (buf ++ [' ']).length :=
          Nat.le_of_not_lt hc
        simp only [List.length_append, List.length_singleton] at htk
        have hfull : strncatB (buf ++ [' ']) tok = (buf ++ [' ']) ++ tok := by
          simp only [strncatB, List.length_append, List.length_singleton]
          rw [List.take_of_length_le htk]
        rw [hfull] at h
        have hb2 : b2 = (buf ++ [' ']) ++ tok := (Option.some_inj.mp h).symm
        constructor
        · rw [hb2]
          simp
        · rw [hb2]
          simp
          omega
  · have hbe : buf = [] := List.length_eq_zero.mp (Nat.eq_zero_of_not_pos h0)
    subst hbe
    simp only [h0, if_false] at h ⊢
    by_cases hc : MAX_LINE - ([] : List Char).length < tok.length
    · rw [if_pos hc] at h
      exact Option.noConfusion h
    · rw [if_neg hc] at h
      have htk : tok.length ≤ MAX_LINE - ([] : List Char).length :=
        Nat.le_of_not_lt hc
      simp only [List.length_nil, Nat.sub_zero] at htk
      have hfull : strncatB [] tok = tok := by
        simp only [strncatB, List.length_nil, Nat.sub_zero, List.nil_append]
        exact List.take_of_length_le htk
      rw [hfull] at h
      have hb2 : b2 = tok := (Option.some_inj.mp h).symm
      constructor
      · rw [hb2]
        rfl
      · rw [hb2]
        exact htk

/-- `assignC` preserves the node-array length. -/
theorem assignC_length (rng : Nat → Nat) (colors : List Nat) (k u : Nat) :
    (assignC rng colors k u).1.length = colors.length := by
  unfold assignC
  split <;> simp

/-- `assignC` never changes an already colored node. -/
theorem assignC_mono (rng : Nat → Nat) (colors : List Nat) (k u i : Nat)
    (hi : colors.getD i 0 ≠ 0) :
    (assignC rng colors k u).1.getD i 0 = colors.getD i 0 := by
  unfold assignC
  split
  · next h0 =>
    have hne : u ≠ i := fun he => hi (he ▸ h0)
    exact getD_set_ne _ _ _ _ _ hne
  · rfl

/-- `assignC` keeps every color in `{0, 1, 2, 3}`. -/
theorem assignC_le3 (rng : Nat → Nat) (colors : List Nat) (k u : Nat)
    (h : ∀ i, colors.getD i 0 ≤ 3) :
    ∀ i, (assignC rng colors k u).1.getD i 0 ≤ 3 := by
  intro i
  unfold assignC
  split
  · by_cases he : u = i
    · subst he
      by_cases hu : u < colors.length
      · rw [getD_set_self _ _ _ _ hu]
        omega
      · rw [List.getD_eq_default]
        · omega
        · simp
          omega
    · rw [getD_set_ne _ _ _ _ _ he]
      exact h i
  · exact h i

/-- After `assignC` at an in-range node, that node is colored. -/
theorem assignC_self_nonzero (rng : Nat → Nat) (colors : List Nat) (k u : Nat)
    (hu : u < colors.length) :
    (assignC rng colors k u).1.getD u 0 ≠ 0 := by
  unfold assignC
  split
  · rw [getD_set_self _ _ _ _ hu]
    omega
  · next h0 => exact h0

/-- Main specification of the coloring-engine loop.  On a successful
(non-discarded) run the final color array agrees with the inputs
(length-preserving, monotone on colored nodes, colors bounded by 3,
processed endpoints colored), the record buffer stays within `MAX_LINE`,
the ghost `flagged` list collects exactly the tokens of the edges whose
two endpoints carry equal final colors (in edge order), and the record
buffer is these tokens joined by single spaces onto the accumulator. -/
theorem gen3cAux_spec (rng : Nat → Nat)
    (res : List Char × List (List Char) × List Nat × Nat) :
    ∀ (items : List ((Nat × Nat) × List Char)) (colors : List Nat) (k : Nat)
      (buf : List Char) (flagged : List (List Char)),
      gen3cAux rng items colors k buf flagged = some res →
      (∀ it ∈ items, it.2 ≠ []) →
      buf.length ≤ MAX_LINE →
      (∀ it ∈ items, it.1.1 < colors.length ∧ it.1.2 < colors.length) →
      res.2.2.1.length = colors.length ∧
      (∀ i, colors.getD i 0 ≠ 0 → res.2.2.1.getD i 0 = colors.getD i 0) ∧
      ((∀ i, colors.getD i 0 ≤ 3) → (∀ i, res.2.2.1.getD i 0 ≤ 3)) ∧
      (∀ it ∈ items,
        res.2.2.1.getD it.1.1 0 ≠ 0 ∧ res.2.2.1.getD it.1.2 0 ≠ 0) ∧
      res.1.length ≤ MAX_LINE ∧
      res.2.1 = flagged ++ (items.filter (fun it =>
          res.2.2.1.getD it.1.1 0 == res.2.2.1.getD it.1.2 0)).map Prod.snd ∧
      res.1 = joinAcc buf ((items.filter (fun it =>
          res.2.2.1.getD it.1.1 0 == res.2.2.1.getD it.1.2 0)).map Prod.snd) := by
  intro items
  induction items with
  | nil =>
    intro colors k buf flagged hgen h1 hb h3
    simp only [gen3cAux] at hgen
    obtain rfl := Option.some_inj.mp hgen
    refine ⟨rfl, fun i _ => rfl, fun h i => h i, ?_, hb, ?_, ?_⟩
    · intro it hit
      exact absurd hit (List.not_mem_nil it)
    · simp
    · simp [joinAcc]
  | cons hd rest ih =>
    obtain ⟨⟨u, v⟩, tok⟩ := hd
    intro colors k buf flagged hgen h1 hb h3
    have htokne : tok ≠ [] := h1 ((u, v), tok) (by simp)
    have huv := h3 ((u, v), tok) (by simp)
    simp only [gen3cAux] at hgen
    set A := assignC rng colors k u with hA
    set B := assignC rng A.1 A.2 v with hB
    have hlenA : A.1.length = colors.length := assignC_length rng colors k u
    have hlenB : B.1.length = colors.length := by
      rw [hB, assignC_length, hlenA]
    have hmonoAB : ∀ i, colors.getD i 0 ≠ 0 → B.1.getD i 0 = colors.getD i 0 := by
      intro i hi
      have h1' : A.1.getD i 0 = colors.getD i 0 := assignC_mono rng colors k u i hi
      have h2' : B.1.getD i 0 = A.1.getD i 0 :=
        assignC_mono rng A.1 A.2 v i (by rw [h1']; exact hi)
      rw [h2', h1']
    have hAu : A.1.getD u 0 ≠ 0 := assignC_self_nonzero rng colors k u huv.1
    have hU : B.1.getD u 0 ≠ 0 := by
      have := assignC_mono rng A.1 A.2 v u hAu
      rw [hB, this]
      exact hAu
    have hV : B.1.getD v 0 ≠ 0 :=
      assignC_self_nonzero rng A.1 A.2 v (by rw [hlenA]; exact huv.2)
    have hrange : (∀ i, colors.getD i 0 ≤ 3) → ∀ i, B.1.getD i 0 ≤ 3 := by
      intro hc
      exact assignC_le3 rng A.1 A.2 v (assignC_le3 rng colors k u hc)
    have hrest1 : ∀ it ∈ rest, it.2 ≠ [] :=
      fun it hit => h1 it (List.mem_cons_of_mem _ hit)
    have hrest3 : ∀ it ∈ rest, it.1.1 < B.1.length ∧ it.1.2 < B.1.length := by
      intro it hit
      rw [hlenB]
      exact h3 it (List.mem_cons_of_mem _ hit)
    by_cases hconf : B.1.getD u 0 = B.1.getD v 0
    · rw [if_pos hconf] at hgen
      cases happ : appendTok buf tok with
      | none =>
        rw [happ] at hgen
        exact Option.noConfusion hgen
      | some b2 =>
        rw [happ] at hgen
        obtain ⟨hb2shape, hb2len⟩ := appendTok_some htokne hb happ
        obtain ⟨ihlen, ihmono, ihrange, ihend, ihblen, ihflag, ihjoin⟩ :=
          ih B.1 B.2 b2 (flagged ++ [tok]) hgen hrest1 hb2len hrest3
        have hpu : res.2.2.1.getD u 0 = B.1.getD u 0 := ihmono u hU
        have hpv : res.2.2.1.getD v 0 = B.1.getD v 0 := ihmono v hV
        have hpred : (res.2.2.1.getD u 0 == res.2.2.1.getD v 0) = true := by
          rw [hpu, hpv]
          exact beq_iff_eq.mpr hconf
        refine ⟨?_, ?_, ?_, ?_, ihblen, ?_, ?_⟩
        · rw [ihlen, hlenB]
        · intro i hi
          rw [ihmono i (by rw [hmonoAB i hi]; exact hi), hmonoAB i hi]
        · intro hcall i
          exact ihrange (hrange hcall) i
        · intro it hit
          rcases List.mem_cons.1 hit with he | hm
          · rw [he]
            exact ⟨by rw [hpu]; exact hU, by rw [hpv]; exact hV⟩
          · exact ihend it hm
        · rw [ihflag, List.filter_cons, if_pos hpred]
          simp
        · rw [ihjoin, List.filter_cons, if_pos hpred]
          simp only [List.map_cons]
          rw [joinAcc, ← hb2shape]
    · rw [if_neg hconf] at hgen
      obtain ⟨ihlen, ihmono, ihrange, ihend, ihblen, ihflag, ihjoin⟩ :=
        ih B.1 B.2 buf flagged hgen hrest1 hb hrest3
      have hpu : res.2.2.1.getD u 0 = B.1.getD u 0 := ihmono u hU
      have hpv : res.2.2.1.getD v 0 = B.1.getD v 0 := ihmono v hV
      have hpred : (res.2.2.1.getD u 0 == res.2.2.1.getD v 0) = false := by
        rw [hpu, hpv]
        exact beq_eq_false_iff_ne.mpr hconf
      refine ⟨?_, ?_, ?_, ?_, ihblen, ?_, ?_⟩
      · rw [ihlen, hlenB]
      · intro i hi
        rw [ihmono i (by rw [hmonoAB i hi]; exact hi), hmonoAB i hi]
      · intro hcall i
        exact ihrange (hrange hcall) i
      · intro it hit
        rcases List.mem_cons.1 hit with he | hm
        · rw [he]
          exact ⟨by rw [hpu]; exact hU, by rw [hpv]; exact hV⟩
        · exact ihend it hm
      · rw [ihflag, List.filter_cons, if_neg (by rw [hpred]; exact Bool.false_ne_true)]
      · rw [ihjoin, List.filter_cons, if_neg (by rw [hpred]; exact Bool.false_ne_true)]

/-- `joinAcc` from a nonempty accumulator appends each further token after
one space. -/
theorem joinAcc_append (ts : List (List Char)) :
    ∀ b : List Char, b ≠ [] →
      joinAcc b ts = b ++ (ts.map (fun t => ' ' :: t)).flatten := by
  induction ts with
  | nil =>
    intro b _
    simp [joinAcc]
  | cons t rest ih =>
    intro b hb
    rw [joinAcc, if_pos (List.length_pos.mpr hb)]
    rw [ih (b ++ ' ' :: t) (by simp)]
    simp

/-- `joinSp` separates the tail tokens from the head with single spaces. -/
theorem joinSp_eq_flatten (t : List Char) (ts : List (List Char)) :
    joinSp (t :: ts) = t ++ (ts.map (fun x => ' ' :: x)).flatten := by
  induction ts generalizing t with
  | nil => simp [joinSp]
  | cons s rest ih =>
    show joinSp (t :: s :: rest) = _
    rw [joinSp, ih s]
    simp

/-- On an empty accumulator `joinAcc` is the space-join, provided the
first token is nonempty (equivalently, all tokens are). -/
theorem joinAcc_nil (ts : List (List Char)) (h : ∀ x ∈ ts, x ≠ []) :
    joinAcc [] ts = joinSp ts := by
  cases ts with
  | nil => rfl
  | cons t rest =>
    have ht : t ≠ [] := h t (by simp)
    rw [joinAcc, if_neg (by simp), List.nil_append,
      joinAcc_append rest t ht, joinSp_eq_flatten]

/-! ### Claim C3 -/

/-- C3: correctness of the Coloring Engine.  For a parsed graph (edge list
over node ids `0..nodeN-1` with their nonempty original argument strings)
and any random stream, when `generate3coloring` returns `0` the record
buffer is exactly the original textual forms of the edges whose two
endpoints carry equal (final) colors, in edge-list order, separated by
single spaces; the color array starts all-uncolored
(`List.replicate nodeN 0`, the `memset` of generator.c line 259) and every
processed endpoint ends with a color in `{1, 2, 3}` drawn from the stream;
zero conflicting edges yield the empty string. -/
theorem c3_coloring_correct (nodeN : Nat) (edges : List (Nat × Nat))
    (toks : List (List Char)) (rng : Nat → Nat) (buf : List Char)
    (flagged : List (List Char)) (colorsF : List Nat) (k : Nat)
    (hT : toks.length = edges.length)
    (hE : ∀ e ∈ edges, e.1 < nodeN ∧ e.2 < nodeN)
    (hne : ∀ t ∈ toks, t ≠ [])
    (hgen : generate3coloring nodeN edges toks rng =
      some (buf, flagged, colorsF, k)) :
    buf = joinSp flagged ∧
    flagged = ((edges.zip toks).filter (fun it =>
        colorsF.getD it.1.1 0 == colorsF.getD it.1.2 0)).map Prod.snd ∧
    (∀ e ∈ edges,
      (1 ≤ colorsF.getD e.1 0 ∧ colorsF.getD e.1 0 ≤ 3) ∧
      (1 ≤ colorsF.getD e.2 0 ∧ colorsF.getD e.2 0 ≤ 3)) ∧
    (flagged = [] → buf = []) := by
  have hzip2 : ∀ it ∈ edges.zip toks, it.2 ≠ [] := by
    intro it hit
    exact hne it.2 (List.of_mem_zip hit).2
  have hzip3 : ∀ it ∈ edges.zip toks,
      it.1.1 < (List.replicate nodeN (0 : Nat)).length ∧
      it.1.2 < (List.replicate nodeN (0 : Nat)).length := by
    intro it hit
    rw [List.length_replicate]
    exact hE it.1 (List.of_mem_zip hit).1
  obtain ⟨hlen, hmono, hrange, hend, hblen, hflag, hjoin⟩ :=
    gen3cAux_spec rng (buf, flagged, colorsF, k) (edges.zip toks)
      (List.replicate nodeN 0) 0 [] [] hgen hzip2 (by simp) hzip3
  dsimp only at hlen hmono hrange hend hblen hflag hjoin
  have hrep : ∀ i, (List.replicate nodeN (0 : Nat)).getD i 0 ≤ 3 := by
    intro i
    rw [List.getD_eq_getElem?_getD]
    simp
  have hflag' : flagged = ((edges.zip toks).filter (fun it =>
      colorsF.getD it.1.1 0 == colorsF.getD it.1.2 0)).map Prod.snd := by
    simpa using hflag
  have hjoin' : buf = joinAcc [] flagged := by
    rw [hjoin, ← hflag']
  have hfne : ∀ x ∈ flagged, x ≠ [] := by
    intro x hx
    rw [hflag'] at hx
    obtain ⟨it, hit, rfl⟩ := List.mem_map.1 hx
    exact hne it.2 (List.of_mem_zip (List.mem_of_mem_filter hit)).2
  have hbufj : buf = joinSp flagged := by
    rw [hjoin', joinAcc_nil flagged hfne]
  have hmem : ∀ e ∈ edges, ∃ t, (e, t) ∈ edges.zip toks := by
    intro e he
    obtain ⟨i, hi, he2⟩ := List.mem_iff_getElem.mp he
    have hit : i < toks.length := by
      rw [hT]
      exact hi
    refine ⟨toks.get ⟨i, hit⟩, ?_⟩
    apply List.mem_iff_getElem.mpr
    refine ⟨i, ?_, ?_⟩
    · rw [List.length_zip]
      omega
    · rw [List.getElem_zip]
      rw [he2]
      rfl
  refine ⟨hbufj, hflag', ?_, ?_⟩
  · intro e he
    obtain ⟨t, hit⟩ := hmem e he
    have h1 := hend (e, t) hit
    have h2 := hrange hrep
    constructor
    · exact ⟨Nat.one_le_iff_ne_zero.mpr h1.1, h2 e.1⟩
    · exact ⟨Nat.one_le_iff_ne_zero.mpr h1.2, h2 e.2⟩
  · intro hfe
    rw [hbufj, hfe]
    rfl

/-- Witness for `c3_coloring_correct` on the single edge `0-1` with the
constant-zero random stream (both endpoints get color 1, the edge is
flagged, and the report is its token). -/
theorem c3_coloring_correct_witness :
    generate3coloring 2 [(0, 1)] ["0-1".data] (fun _ => 0) =
      some ("0-1".data, ["0-1".data], [1, 1], 2) ∧
    "0-1".data = joinSp ["0-1".data] :=
  ⟨rfl,
    (c3_coloring_correct 2 [(0, 1)] ["0-1".data] (fun _ => 0) "0-1".data
      ["0-1".data] [1, 1] 2 rfl (by decide) (by decide) rfl).1⟩

/-- Evaluation of one `countLoop` entry whose `strchr` finds no further
space. -/
theorem countLoop_eq_none {ws : List Char}
    (h : strchrSp (if ws.head? = some ' ' then ws.tail else ws) = none) :
    countLoop ws = 1 := by
  rw [countLoop]
  split
  · rfl
  · next ws2 heq =>
    rw [h] at heq
    exact Option.noConfusion heq

/-- Evaluation of one `countLoop` entry whose `strchr` finds a next
space. -/
theorem countLoop_eq_some {ws ws2 : List Char}
    (h : strchrSp (if ws.head? = some ' ' then ws.tail else ws) = some ws2) :
    countLoop ws = 1 + countLoop ws2 := by
  rw [countLoop]
  split
  · next heq =>
    rw [h] at heq
    exact Option.noConfusion heq
  · next ws3 heq =>
    rw [h] at heq
    obtain rfl := Option.some_inj.mp heq
    rfl

/-- Each loop entry counts at least one token. -/
theorem countLoop_pos (ws : List Char) : 1 ≤ countLoop ws := by
  rw [countLoop]
  split <;> omega

/-- `strchr` skips a space-free block. -/
theorem strchrSp_append_clean (t r : List Char) (h : ∀ c ∈ t, c ≠ ' ') :
    strchrSp (t ++ r) = strchrSp r := by
  induction t with
  | nil => rfl
  | cons c ct ih =>
    have hc : c ≠ ' ' := h c (by simp)
    rw [List.cons_append, strchrSp_cons_ne c _ hc]
    exact ih (fun d hd => h d (by simp [hd]))

/-- `strchr` finds nothing in a space-free string. -/
theorem strchrSp_clean (t : List Char) (h : ∀ c ∈ t, c ≠ ' ') :
    strchrSp t = none := by
  have := strchrSp_append_clean t [] h
  simpa using this

/-- Entering the counting loop at a separating space followed by the join
of nonempty space-free tokens counts exactly those tokens. -/
theorem countLoop_sep (ts : List (List Char))
    (h : ∀ x ∈ ts, x ≠ [] ∧ ∀ c ∈ x, c ≠ ' ') (hne : ts ≠ []) :
    countLoop (' ' :: joinSp ts) = ts.length := by
  induction ts with
  | nil => exact absurd rfl hne
  | cons t rest ih =>
    obtain ⟨ht, htc⟩ := h t (by simp)
    cases rest with
    | nil =>
      have hn : strchrSp (if (' ' :: joinSp [t]).head? = some ' '
          then (' ' :: joinSp [t]).tail else (' ' :: joinSp [t])) = none := by
        show strchrSp (joinSp [t]) = none
        exact strchrSp_clean t htc
      rw [countLoop_eq_none hn]
      rfl
    | cons s rest' =>
      have hx : joinSp (t :: s :: rest') = t ++ ' ' :: joinSp (s :: rest') := by
        rw [joinSp]
      have hs : strchrSp (if (' ' :: joinSp (t :: s :: rest')).head? = some ' '
          then (' ' :: joinSp (t :: s :: rest')).tail
          else (' ' :: joinSp (t :: s :: rest'))) =
          some (' ' :: joinSp (s :: rest')) := by
        show strchrSp (joinSp (t :: s :: rest')) = some (' ' :: joinSp (s :: rest'))
        rw [hx, strchrSp_append_clean t _ htc]
        simp [strchrSp]
      rw [countLoop_eq_some hs,
        ih (fun x hx2 => h x (List.mem_cons_of_mem _ hx2)) (by simp)]
      simp only [List.length_cons]
      omega

/-- `countLoop` on the space-join of nonempty space-free tokens counts
exactly those tokens. -/
theorem countLoop_joinSp (ts : List (List Char))
    (h : ∀ x ∈ ts, x ≠ [] ∧ ∀ c ∈ x, c ≠ ' ') (hne : ts ≠ []) :
    countLoop (joinSp ts) = ts.length := by
  cases ts with
  | nil => exact absurd rfl hne
  | cons t rest =>
    obtain ⟨ht, htc⟩ := h t (by simp)
    obtain ⟨c, t', rfl⟩ := List.exists_cons_of_ne_nil ht
    have hc : c ≠ ' ' := htc c (by simp)
    cases rest with
    | nil =>
      have hn : strchrSp (if (joinSp [c :: t']).head? = some ' '
          then (joinSp [c :: t']).tail else joinSp [c :: t']) = none := by
        show strchrSp (if (c :: t').head? = some ' ' then (c :: t').tail
          else (c :: t')) = none
        rw [if_neg (by simp [hc])]
        exact strchrSp_clean _ htc
      rw [countLoop_eq_none hn]
      rfl
    | cons s rest' =>
      have hx : joinSp ((c :: t') :: s :: rest') =
          (c :: t') ++ ' ' :: joinSp (s :: rest') := by
        rw [joinSp]
      have hs : strchrSp (if (joinSp ((c :: t') :: s :: rest')).head? = some ' '
          then (joinSp ((c :: t') :: s :: rest')).tail
          else joinSp ((c :: t') :: s :: rest')) =
          some (' ' :: joinSp (s :: rest')) := by
        rw [hx]
        rw [if_neg (by simp [hc])]
        rw [strchrSp_append_clean _ _ htc]
        simp [strchrSp]
      rw [countLoop_eq_some hs,
        countLoop_sep (s :: rest')
          (fun x hx2 => h x (List.mem_cons_of_mem _ hx2)) (by simp)]
      simp only [List.length_cons]
      omega

/-- `countEdges` of the space-join of nonempty space-free tokens is the
token count. -/
theorem countEdges_joinSp (ts : List (List Char))
    (h : ∀ x ∈ ts, x ≠ [] ∧ ∀ c ∈ x, c ≠ ' ') :
    countEdges (joinSp ts) = ts.length := by
  cases ts with
  | nil => rfl
  | cons t rest =>
    obtain ⟨ht, _⟩ := h t (by simp)
    obtain ⟨c, t', rfl⟩ := List.exists_cons_of_ne_nil ht
    have hjne : joinSp ((c :: t') :: rest) ≠ [] := by
      cases rest with
      | nil => simp [joinSp]
      | cons s rest' =>
        rw [joinSp]
        simp
    rw [countEdges, if_neg (by simp [hjne])]
    exact countLoop_joinSp _ h (by simp)

/-- `countEdges` returns 0 exactly on the empty record. -/
theorem countEdges_zero_iff (s : List Char) : countEdges s = 0 ↔ s = [] := by
  constructor
  · intro h
    by_contra hne
    rw [countEdges, if_neg (by simp [hne])] at h
    have := countLoop_pos s
    omega
  · intro h
    rw [h]
    rfl

/-! ### Claim C4 -/

/-- C4 (failing input): the overflow check of generate3coloring (line 271,
`MAX_LINE - strlen(buf) < strlen(edgeStr[i+offset])`) is off by one.  On
the graph `c4Edges` with all random draws 0, every one of the twelve
edges conflicts and the twelve tokens join to exactly `MAX_LINE` = 50
characters, yet the function returns 0 (no discard): the resulting C
string has length `MAX_LINE`, not at most `MAX_LINE - 1`, so its
terminating NUL is written at `buf[MAX_LINE]`, one byte past the
`MAX_LINE`-byte buffer.  A genuinely larger report (one further token) is
discarded, so the failure is exactly at the boundary. -/
theorem c4_overflow_off_by_one :
    ((generate3coloring 11 c4Edges c4Toks (fun _ => 0)).map
      (fun r => r.1.length)) = some MAX_LINE ∧
    MAX_LINE - 1 = 49 ∧
    generate3coloring 11 (c4Edges ++ [(0, 0)]) (c4Toks ++ ["0-0".data])
      (fun _ => 0) = none := by
  refine ⟨?_, rfl, ?_⟩ <;> rfl

/-! ### Claim C8 -/

/-- C8 (counterexample): the conflict-count round trip fails on a report
whose edge token itself contains a space.  The generator accepts the
argument `" 0-0"` (see `c7_parse_accepts_malformed` — `strtol` skips the
blank), and with arguments `"0-0"` and `" 0-0"` (both parse to the
self-loop `(0,0)`, always in conflict) the produced report is
`"0-0  0-0"`; `countEdges` counts 3 space-separated tokens while the
Coloring Engine flagged only 2 edges. -/
theorem c8_counterexample :
    generate3coloring 1 [(0, 0), (0, 0)] ["0-0".data, " 0-0".data]
      (fun _ => 0) =
      some ("0-0  0-0".data, ["0-0".data, " 0-0".data], [1], 1) ∧
    countEdges "0-0  0-0".data = 3 ∧
    (["0-0".data, " 0-0".data] : List (List Char)).length = 2 ∧
    (3 : Nat) ≠ 2 := by
  refine ⟨rfl, ?_, rfl, by decide⟩
  have h1 : countLoop "0-0  0-0".data = 1 + countLoop "  0-0".data :=
    countLoop_eq_some (by rfl)
  have h2 : countLoop "  0-0".data = 1 + countLoop " 0-0".data :=
    countLoop_eq_some (by rfl)
  have h3 : countLoop " 0-0".data = 1 := countLoop_eq_none (by rfl)
  show (if ("0-0  0-0".data).length = 0 then 0
    else countLoop "0-0  0-0".data) = 3
  rw [if_neg (by decide), h1, h2, h3]

/-- C8 (amended): for every conflict report produced (not discarded) by
`generate3coloring` whose edge tokens are nonempty and space-free — which
is the case for every argument of the exact documented form `U-V` —
`countEdges` applied to the report equals the number of edges the engine
flagged as conflicting; and for every record whatsoever, `countEdges`
returns 0 exactly when the record is the empty string. -/
theorem c8_roundtrip (nodeN : Nat) (edges : List (Nat × Nat))
    (toks : List (List Char)) (rng : Nat → Nat) (buf : List Char)
    (flagged : List (List Char)) (colorsF : List Nat) (k : Nat)
    (hE : ∀ e ∈ edges, e.1 < nodeN ∧ e.2 < nodeN)
    (hne : ∀ t ∈ toks, t ≠ [] ∧ ∀ c ∈ t, c ≠ ' ')
    (hgen : generate3coloring nodeN edges toks rng =
      some (buf, flagged, colorsF, k)) :
    countEdges buf = flagged.length ∧
    (countEdges buf = 0 ↔ buf = []) ∧
    (∀ r : List Char, countEdges r = 0 ↔ r = []) := by
  have hzip2 : ∀ it ∈ edges.zip toks, it.2 ≠ [] := by
    intro it hit
    exact (hne it.2 (List.of_mem_zip hit).2).1
  have hzip3 : ∀ it ∈ edges.zip toks,
      it.1.1 < (List.replicate nodeN (0 : Nat)).length ∧
      it.1.2 < (List.replicate nodeN (0 : Nat)).length := by
    intro it hit
    rw [List.length_replicate]
    exact hE it.1 (List.of_mem_zip hit).1
  obtain ⟨hlen, hmono, hrange, hend, hblen, hflag, hjoin⟩ :=
    gen3cAux_spec rng (buf, flagged, colorsF, k) (edges.zip toks)
      (List.replicate nodeN 0) 0 [] [] hgen hzip2 (by simp) hzip3
  dsimp only at hflag hjoin
  have hflag' : flagged = ((edges.zip toks).filter (fun it =>
      colorsF.getD it.1.1 0 == colorsF.getD it.1.2 0)).map Prod.snd := by
    simpa using hflag
  have hfclean : ∀ x ∈ flagged, x ≠ [] ∧ ∀ c ∈ x, c ≠ ' ' := by
    intro x hx
    rw [hflag'] at hx
    obtain ⟨it, hit, rfl⟩ := List.mem_map.1 hx
    exact hne it.2 (List.of_mem_zip (List.mem_of_mem_filter hit)).2
  have hbufj : buf = joinSp flagged := by
    rw [hjoin, ← hflag', joinAcc_nil flagged (fun x hx => (hfclean x hx).1)]
  refine ⟨?_, countEdges_zero_iff buf, fun r => countEdges_zero_iff r⟩
  rw [hbufj]
  exact countEdges_joinSp flagged hfclean

/-- Witness for `c8_roundtrip` on the single self-loop `0-0`: the report
is the one flagged token and `countEdges` counts 1. -/
theorem c8_roundtrip_witness :
    generate3coloring 1 [(0, 0)] ["0-0".data] (fun _ => 0) =
      some ("0-0".data, ["0-0".data], [1], 1) ∧
    countEdges "0-0".data = 1 :=
  ⟨rfl,
    (c8_roundtrip 1 [(0, 0)] ["0-0".data] (fun _ => 0) "0-0".data
      ["0-0".data] [1] 1 (by decide) (by decide) rfl).1⟩

end ThreeCol
